import Mathlib

/-!
# Verification of the hybrid-search-with-reranking n8n code node

This file gives a shallow embedding of the query-time pipeline of the
hybrid search code node (dense + BM25 retrieval through Qdrant, followed by
ColBERT late-interaction reranking) and proves, or refutes, the stated
properties of that pipeline.

The JavaScript source works on IEEE doubles.  All values that actually
arise in the node are finite reals, `-Infinity` (the seed of the running
maximum in `colbertScore`, which survives when a candidate's stored vector
list is empty) and `NaN` (from reading past the end of a stored token
vector when a query token vector is longer).  The scalar model `JsNum`
below represents exactly these three kinds of values; its arithmetic
follows the IEEE rules on every case the node can reach, and each case the
node cannot reach is noted in a comment where it is collapsed.
-/

noncomputable section

open scoped Classical

namespace HybridSearch

/-- Model of the JavaScript numbers that occur in the code node: a finite
double is `fin x`, `-Infinity` is `ninf`, and `NaN` (or the `undefined`
produced by an out-of-range array read, which becomes `NaN` as soon as
arithmetic touches it) is `nan`.  `+Infinity` never arises in the node
(see the comments on the operations below). -/
inductive JsNum where
  | nan : JsNum
  | ninf : JsNum
  | fin (x : ℝ) : JsNum

/-- JavaScript `+` on the values the node can produce: `NaN` is absorbing,
`-Infinity + x = -Infinity` for `x` finite or `-Infinity`. -/
def jsAdd : JsNum → JsNum → JsNum
  | .nan, _ => .nan
  | _, .nan => .nan
  | .ninf, _ => .ninf
  | _, .ninf => .ninf
  | .fin a, .fin b => .fin (a + b)

/-- JavaScript `*` on the values the node can produce: `NaN` is absorbing;
`-Infinity * b = -Infinity` for `b > 0` (the node only ever multiplies
`-Infinity` by the positive literal `0.6`; `b ≤ 0`, which would give
`+Infinity` or `NaN`, is collapsed to `nan` and is unreachable). -/
def jsMul : JsNum → JsNum → JsNum
  | .nan, _ => .nan
  | _, .nan => .nan
  | .ninf, .fin b => if 0 < b then .ninf else .nan
  | .fin a, .ninf => if 0 < a then .ninf else .nan
  | .ninf, .ninf => .nan
  | .fin a, .fin b => .fin (a * b)

/-- JavaScript `/` on the values the node can produce.  The node divides
only by a denominator that is `NaN`, a nonzero finite number, or the
(nonnegative) candidate count, so: `NaN` is absorbing, `-Infinity / b =
-Infinity` for `b ≥ 0`, and `fin a / fin 0` (reachable only as `0/0`,
i.e. `NaN`, since the numerator is then the empty sum `0`) is `nan`.
Division by `-Infinity` cannot occur and is collapsed to `nan`. -/
def jsDiv : JsNum → JsNum → JsNum
  | .nan, _ => .nan
  | _, .nan => .nan
  | _, .ninf => .nan
  | .ninf, .fin b => if 0 ≤ b then .ninf else .nan
  | .fin a, .fin b => if b = 0 then .nan else .fin (a / b)

/-- JavaScript `Math.max`: `NaN` wins over everything, `-Infinity` is the
identity. -/
def jsMax : JsNum → JsNum → JsNum
  | .nan, _ => .nan
  | _, .nan => .nan
  | .ninf, b => b
  | a, .ninf => a
  | .fin a, .fin b => .fin (max a b)

/-- JavaScript `Math.sqrt`: `NaN` on `NaN`, on `-Infinity` and on negative
inputs; the real square root otherwise. -/
def jsSqrt : JsNum → JsNum
  | .nan => .nan
  | .ninf => .nan
  | .fin x => if x < 0 then .nan else .fin (Real.sqrt x)

/-- `v[i]` for a JavaScript array of numbers: the element when `i` is in
range, otherwise `undefined`, which the node immediately multiplies and so
behaves as `NaN`. -/
def jsIdx (v : List ℝ) (i : ℕ) : JsNum :=
  if h : i < v.length then .fin (v.get ⟨i, h⟩) else .nan

/-! ## The scoring loop of the code node

`function colbertScore(qVecs, dVecs)` from the node, translated loop for
loop: the inner `for (let i = 0; i < qv.length; i++)` accumulating
`dot`, `qNorm`, `dNorm` becomes a fold over `List.range qv.length`; the
`for (const dv of dVecs)` running maximum seeded with `-Infinity` becomes
a fold with `jsMax` seeded with `ninf`; the outer `for (const qv of
qVecs)` accumulating `total` becomes a fold with `jsAdd` seeded with
`fin 0`; finally `total / qVecs.length`. -/

/-- The inner index loop of `colbertScore`: accumulates
`(dot, qNorm, dNorm)` over `i < qv.length`. -/
def innerLoop (qv dv : List ℝ) : JsNum × JsNum × JsNum :=
  (List.range qv.length).foldl
    (fun s i =>
      (jsAdd s.1 (jsMul (jsIdx qv i) (jsIdx dv i)),
       jsAdd s.2.1 (jsMul (jsIdx qv i) (jsIdx qv i)),
       jsAdd s.2.2 (jsMul (jsIdx dv i) (jsIdx dv i))))
    (.fin 0, .fin 0, .fin 0)

/-- One cosine-similarity computation of the node:
`denom = Math.sqrt(qNorm) * Math.sqrt(dNorm); sim = denom === 0 ? 0 : dot / denom`. -/
def simOne (qv dv : List ℝ) : JsNum :=
  let s := innerLoop qv dv
  let denom := jsMul (jsSqrt s.2.1) (jsSqrt s.2.2)
  if denom = .fin 0 then .fin 0 else jsDiv s.1 denom

/-- `colbertScore` from the code node. -/
def colbertScore (qVecs dVecs : List (List ℝ)) : JsNum :=
  let total := qVecs.foldl
    (fun t qv => jsAdd t (dVecs.foldl (fun m dv => jsMax m (simOne qv dv)) .ninf))
    (.fin 0)
  jsDiv total (.fin qVecs.length)

/-! ## Specification-side definitions

These follow the wording of the specification ("MaxSim aggregation"):
dot product, Euclidean norm, cosine similarity with the zero-norm guard,
maximum over a token-vector list, and the averaged per-query-token
maxima. They are deliberately phrased independently of the loop structure
of the code, to be compared with `colbertScore`. -/

/-- Dot product of two vectors given as lists (spec side). -/
def dotList (q d : List ℝ) : ℝ := (List.zipWith (· * ·) q d).sum

/-- Euclidean norm of a vector given as a list (spec side). -/
def normList (v : List ℝ) : ℝ := Real.sqrt (dotList v v)

/-- Cosine similarity with the spec's zero-norm guard: any pairing
involving a zero-norm vector scores `0`. -/
def cosSim (q d : List ℝ) : ℝ :=
  if normList q * normList d = 0 then 0 else dotList q d / (normList q * normList d)

/-- Maximum of a list of reals (spec side; `0` on the empty list, which
the spec excludes by precondition). -/
def listMax : List ℝ → ℝ
  | [] => 0
  | x :: xs => xs.foldl max x

/-- The spec's MaxSim score: `(1/|Q|) * Σ_{q∈Q} max_{d∈D} cos(q, d)`. -/
def specMaxSim (Q D : List (List ℝ)) : ℝ :=
  (1 / (Q.length : ℝ)) * (Q.map (fun q => listMax (D.map (fun d => cosSim q d)))).sum

/-! ## Data model of the node's inputs, payloads and output -/

/-- The sparse (BM25) query embedding `{ indices, values }` returned by the
fastembed service. -/
structure SparseVec where
  indices : List ℕ
  values : List ℝ

/-- A Qdrant point payload as the node reads it: `payload.text` and
`payload.colbert_embedding` (the stored late-interaction token vectors,
possibly absent). -/
structure Payload where
  text : String
  colbert_embedding : Option (List (List ℝ))

/-- A fused-search candidate returned by Qdrant: `{ id, score, payload }`
(`score` is the RRF score; `payload` may be absent). -/
structure Candidate where
  id : ℕ
  score : ℝ
  payload : Option Payload

/-- The `result` object of the Qdrant response; its `points` array may be
absent. -/
structure SearchResult where
  points : Option (List Candidate)

/-- The node's input item: `{ query, collection_name, top_k }`, the last
two optional. -/
structure SearchInput where
  query : String
  collection_name : Option String
  top_k : Option ℤ

/-- One entry of the node's `results` array. -/
structure ResultEntry where
  id : ℕ
  text : String
  hybrid_score : ℝ
  colbert_score : JsNum
  final_score : JsNum

/-- The node's return value
`{ query, results, method, num_candidates, num_results }`. -/
structure SearchOutput where
  query : String
  results : List ResultEntry
  method : String
  num_candidates : ℕ
  num_results : ℕ

/-- `collection_name || 'hybrid_demo'`: JavaScript `||` also replaces the
falsy empty string. -/
def effCollection (i : SearchInput) : String :=
  match i.collection_name with
  | some s => if s = "" then "hybrid_demo" else s
  | none => "hybrid_demo"

/-- `top_k || 3`: JavaScript `||` replaces the falsy `0` (and an absent
field) by `3`; every other integer, including negative ones, is kept. -/
def effTopK (i : SearchInput) : ℤ :=
  match i.top_k with
  | some k => if k = 0 then 3 else k
  | none => 3

/-- The filter `c => c.payload && c.payload.colbert_embedding`: JavaScript
truthiness keeps every candidate whose payload object and
`colbert_embedding` field are both present — an array is truthy even when
it is empty. -/
def keepCandidate (c : Candidate) : Bool :=
  c.payload.isSome && (c.payload.bind Payload.colbert_embedding).isSome

/-- The body of the `.map` in the node: score one (kept) candidate.  The
`getD` defaults are unreachable because the candidate passed the filter. -/
def scoreEntry (queryColbert : List (List ℝ)) (c : Candidate) : ResultEntry :=
  let colbScore := colbertScore queryColbert ((c.payload.bind Payload.colbert_embedding).getD [])
  { id := c.id
    text := (c.payload.map Payload.text).getD ""
    hybrid_score := c.score
    colbert_score := colbScore
    final_score := jsAdd (jsMul (.fin c.score) (.fin 0.4)) (jsMul colbScore (.fin 0.6)) }

/-- The comparator `(a, b) => b.final_score - a.final_score` of the node's
`.sort`, expressed as the induced "a may stay before b" relation: `a`
stays before `b` exactly when the comparator value is `≤ 0`, where a `NaN`
comparator value is treated as `0` (ECMAScript `CompareArrayElements`). -/
def sortKeep (a b : ResultEntry) : Prop :=
  match b.final_score, a.final_score with
  | .nan, _ => True
  | _, .nan => True
  | .ninf, _ => True
  | .fin _, .ninf => False
  | .fin x, .fin y => x ≤ y

/-- Insert `x` into `l` in front of the first element it may precede.
Used to realise the stable sort mandated for `Array.prototype.sort`. -/
def insertSorted (le : α → α → Prop) (x : α) : List α → List α
  | [] => [x]
  | y :: ys => if le x y then x :: y :: ys else y :: insertSorted le x ys

/-- Stable insertion sort.  ECMAScript requires `Array.prototype.sort` to
be a stable sort; for a consistent comparator every stable sort produces
the same list, so this models the node's `.sort` exactly (for an
inconsistent comparator — only possible here when `NaN` scores arise —
ECMAScript leaves the order implementation-defined, and this is one
admissible behaviour). -/
def stableSort (le : α → α → Prop) : List α → List α
  | [] => []
  | x :: xs => insertSorted le x (stableSort le xs)

/-- `arr.slice(0, k)` on a JavaScript array: the first `k` elements for
`k ≥ 0`; for `k < 0` everything but the last `|k|` elements. -/
def jsSlice (l : List α) (k : ℤ) : List α :=
  if 0 ≤ k then l.take k.toNat else l.take (l.length - (-k).toNat)

/-- The node's `results` pipeline: filter, score, sort by descending
`final_score`, truncate with `slice(0, topK)`. -/
def rerank (queryColbert : List (List ℝ)) (cands : List Candidate) (topK : ℤ) : List ResultEntry :=
  jsSlice (stableSort sortKeep ((cands.filter keepCandidate).map (scoreEntry queryColbert))) topK

/-- `searchData.result && searchData.result.points ? searchData.result.points : []`. -/
def extractCandidates : Option SearchResult → List Candidate
  | some r =>
    match r.points with
    | some ps => ps
    | none => []
  | none => []

/-- The value the node returns, given the ColBERT query embedding and the
Qdrant response. -/
def mkOutput (i : SearchInput) (queryColbert : List (List ℝ))
    (res : Option SearchResult) : SearchOutput :=
  let candidates := extractCandidates res
  let results := rerank queryColbert candidates (effTopK i)
  { query := i.query
    results := results
    method := "hybrid_with_colbert_reranking"
    num_candidates := candidates.length
    num_results := results.length }

/-! ## The await chain as a state machine

The node issues four `await this.helpers.httpRequest(...)` calls in
sequence.  Each `await` is a suspension point with exactly one request
outstanding; the machine below has one state per suspension point, and the
transition out of a state consumes that state's response and issues the
next request.  This is the standard continuation-passing reading of
straight-line `async`/`await` code. -/

/-- The HTTP requests the node can issue, with the request-body fields the
node fills in. -/
inductive Request where
  | denseEmbed (model prompt : String) : Request
  | bm25Embed (texts : String) : Request
  | colbertEmbed (texts : String) : Request
  | qdrantQuery (collection : String) (dense : List ℝ) (sparse : SparseVec)
      (denseLimit sparseLimit overallLimit : ℤ) (fusion : String) (withPayload : Bool) : Request

/-- The responses the node consumes. -/
inductive Resp where
  | dense (embedding : List ℝ) : Resp
  | bm25 (embedding : SparseVec) : Resp
  | colbert (embedding : List (List ℝ)) : Resp
  | search (result : Option SearchResult) : Resp

/-- Suspension points of the node, in source order. -/
inductive NodeState where
  | awaitingDense (i : SearchInput) : NodeState
  | awaitingBm25 (i : SearchInput) (queryDense : List ℝ) : NodeState
  | awaitingColbert (i : SearchInput) (queryDense : List ℝ) (queryBm25 : SparseVec) : NodeState
  | awaitingSearch (i : SearchInput) (queryDense : List ℝ) (queryBm25 : SparseVec)
      (queryColbert : List (List ℝ)) : NodeState
  | done (out : SearchOutput) : NodeState

/-- The node starts by awaiting the Ollama dense-embedding call — there is
no validation of `query` or `top_k` before it. -/
def initState (i : SearchInput) : NodeState := .awaitingDense i

/-- The requests outstanding at a given suspension point.  The Qdrant
request carries the two prefetch channels (`dense`, `bm25`), each with
limit `topK * 5`, the `rrf` fusion token, the overall limit `topK * 5`
and `with_payload: true`. -/
def pendingRequests : NodeState → List Request
  | .awaitingDense i => [.denseEmbed "nomic-embed-text" i.query]
  | .awaitingBm25 i _ => [.bm25Embed i.query]
  | .awaitingColbert i _ _ => [.colbertEmbed i.query]
  | .awaitingSearch i qd qb _ =>
    [.qdrantQuery (effCollection i) qd qb (effTopK i * 5) (effTopK i * 5) (effTopK i * 5)
      "rrf" true]
  | .done _ => []

/-- Consume the response of the current suspension point and move to the
next one; a response of the wrong kind leaves the state unchanged. -/
def step : NodeState → Resp → NodeState
  | .awaitingDense i, .dense e => .awaitingBm25 i e
  | .awaitingBm25 i qd, .bm25 e => .awaitingColbert i qd e
  | .awaitingColbert i qd qb, .colbert e => .awaitingSearch i qd qb e
  | .awaitingSearch i _ _ qc, .search r => .done (mkOutput i qc r)
  | s, _ => s

/-- The four backend responses of one run. -/
structure Responses where
  denseEmbedding : List ℝ
  bm25Embedding : SparseVec
  colbertEmbedding : List (List ℝ)
  searchResult : Option SearchResult

/-- End-to-end run of the node on given backend responses.  The output
depends only on the ColBERT query embedding and the Qdrant response (the
dense and BM25 embeddings feed only the Qdrant request). -/
def runSearch (i : SearchInput) (r : Responses) : SearchOutput :=
  mkOutput i r.colbertEmbedding r.searchResult

/-! ## Lemmas about the scoring loop -/

lemma jsIdx_cons_zero (x : ℝ) (v : List ℝ) : jsIdx (x :: v) 0 = .fin x := by
  simp [jsIdx]

lemma jsIdx_cons_succ (x : ℝ) (v : List ℝ) (i : ℕ) : jsIdx (x :: v) (i + 1) = jsIdx v i := by
  simp only [jsIdx, List.length_cons]
  by_cases h : i < v.length
  · rw [dif_pos h, dif_pos (Nat.succ_lt_succ h)]
    simp
  · rw [dif_neg h, dif_neg (fun hh => h (Nat.lt_of_succ_lt_succ hh))]

lemma dotList_nil (d : List ℝ) : dotList [] d = 0 := by simp [dotList]

lemma dotList_nil_right (q : List ℝ) : dotList q [] = 0 := by simp [dotList]

lemma dotList_cons (x y : ℝ) (q d : List ℝ) :
    dotList (x :: q) (y :: d) = x * y + dotList q d := by
  simp [dotList]

lemma dotList_take (q d : List ℝ) : dotList q (d.take q.length) = dotList q d := by
  induction q generalizing d with
  | nil => simp [dotList]
  | cons x q ih =>
    cases d with
    | nil => simp
    | cons y d => simp [List.take_succ_cons, dotList_cons, ih]

lemma dotList_self_nonneg (v : List ℝ) : 0 ≤ dotList v v := by
  induction v with
  | nil => simp [dotList]
  | cons x xs ih =>
    rw [dotList_cons]
    exact add_nonneg (mul_self_nonneg x) ih

lemma innerFold_eq (qv : List ℝ) :
    ∀ (dv : List ℝ), qv.length ≤ dv.length → ∀ (a b c : ℝ),
    (List.range qv.length).foldl
      (fun s i =>
        (jsAdd s.1 (jsMul (jsIdx qv i) (jsIdx dv i)),
         jsAdd s.2.1 (jsMul (jsIdx qv i) (jsIdx qv i)),
         jsAdd s.2.2 (jsMul (jsIdx dv i) (jsIdx dv i))))
      (.fin a, .fin b, .fin c)
    = (.fin (a + dotList qv dv), .fin (b + dotList qv qv),
       .fin (c + dotList (dv.take qv.length) (dv.take qv.length))) := by
  induction qv with
  | nil =>
    intro dv _ a b c
    simp [dotList]
  | cons x q ih =>
    intro dv h a b c
    cases dv with
    | nil => simp at h
    | cons y d =>
      have hqd : q.length ≤ d.length := by simpa using h
      rw [List.length_cons, List.range_succ_eq_map, List.foldl_cons, List.foldl_map]
      have hstep :
          ∀ (s : JsNum × JsNum × JsNum), ∀ i ∈ List.range q.length,
            (jsAdd s.1 (jsMul (jsIdx (x :: q) (Nat.succ i)) (jsIdx (y :: d) (Nat.succ i))),
             jsAdd s.2.1 (jsMul (jsIdx (x :: q) (Nat.succ i)) (jsIdx (x :: q) (Nat.succ i))),
             jsAdd s.2.2 (jsMul (jsIdx (y :: d) (Nat.succ i)) (jsIdx (y :: d) (Nat.succ i))))
            = (jsAdd s.1 (jsMul (jsIdx q i) (jsIdx d i)),
               jsAdd s.2.1 (jsMul (jsIdx q i) (jsIdx q i)),
               jsAdd s.2.2 (jsMul (jsIdx d i) (jsIdx d i))) := by
        intro s i _
        simp only [show ∀ j : ℕ, Nat.succ j = j + 1 from fun _ => rfl, jsIdx_cons_succ]
      rw [List.foldl_ext _ _ _ hstep]
      have hinit :
          (jsAdd (JsNum.fin a) (jsMul (jsIdx (x :: q) 0) (jsIdx (y :: d) 0)),
           jsAdd (JsNum.fin b) (jsMul (jsIdx (x :: q) 0) (jsIdx (x :: q) 0)),
           jsAdd (JsNum.fin c) (jsMul (jsIdx (y :: d) 0) (jsIdx (y :: d) 0)))
          = ((JsNum.fin (a + x * y), JsNum.fin (b + x * x), JsNum.fin (c + y * y)) :
              JsNum × JsNum × JsNum) := by
        rw [jsIdx_cons_zero, jsIdx_cons_zero]
        rfl
      rw [hinit, ih d hqd]
      simp [dotList_cons, List.take_succ_cons, add_assoc]

lemma innerLoop_eq (qv dv : List ℝ) (h : qv.length ≤ dv.length) :
    innerLoop qv dv
      = (.fin (dotList qv dv), .fin (dotList qv qv),
         .fin (dotList (dv.take qv.length) (dv.take qv.length))) := by
  simpa using innerFold_eq qv dv h 0 0 0

lemma jsSqrt_fin_nonneg {x : ℝ} (h : 0 ≤ x) : jsSqrt (.fin x) = .fin (Real.sqrt x) := by
  simp [jsSqrt, not_lt.mpr h]

lemma simOne_eq (qv dv : List ℝ) (h : qv.length ≤ dv.length) :
    simOne qv dv = .fin (cosSim qv (dv.take qv.length)) := by
  unfold simOne
  rw [innerLoop_eq qv dv h]
  have hq := jsSqrt_fin_nonneg (dotList_self_nonneg qv)
  have hd := jsSqrt_fin_nonneg (dotList_self_nonneg (dv.take qv.length))
  simp only [hq, hd]
  have hmul : jsMul (JsNum.fin (Real.sqrt (dotList qv qv)))
      (JsNum.fin (Real.sqrt (dotList (dv.take qv.length) (dv.take qv.length))))
      = .fin (normList qv * normList (dv.take qv.length)) := rfl
  rw [hmul]
  by_cases hz : normList qv * normList (dv.take qv.length) = 0
  · rw [if_pos (by rw [hz]), cosSim, if_pos hz]
  · rw [if_neg (fun hc => hz (by injection hc)), cosSim, if_neg hz]
    show jsDiv _ _ = _
    rw [jsDiv]
    rw [if_neg hz, dotList_take]

lemma foldl_jsMax_fin_aux (g : β → ℝ) (xs : List β) :
    ∀ (a : ℝ), xs.foldl (fun m x => jsMax m (.fin (g x))) (.fin a)
      = .fin (xs.foldl (fun m x => max m (g x)) a) := by
  induction xs with
  | nil => intro a; rfl
  | cons x xs ih => intro a; rw [List.foldl_cons, List.foldl_cons]; exact ih (max a (g x))

lemma foldl_jsMax_fin (g : β → ℝ) (l : List β) (hl : l ≠ []) :
    l.foldl (fun m x => jsMax m (.fin (g x))) JsNum.ninf = .fin (listMax (l.map g)) := by
  cases l with
  | nil => exact absurd rfl hl
  | cons x xs =>
    rw [List.foldl_cons]
    have h0 : jsMax JsNum.ninf (.fin (g x)) = .fin (g x) := rfl
    rw [h0, foldl_jsMax_fin_aux]
    simp [listMax, List.foldl_map]

lemma foldl_jsAdd_fin (g : β → ℝ) (l : List β) :
    ∀ (a : ℝ), l.foldl (fun t x => jsAdd t (.fin (g x))) (.fin a) = .fin (a + (l.map g).sum) := by
  induction l with
  | nil => intro a; simp
  | cons x xs ih =>
    intro a
    rw [List.foldl_cons]
    have h0 : jsAdd (JsNum.fin a) (.fin (g x)) = .fin (a + g x) := rfl
    rw [h0, ih (a + g x)]
    simp [add_assoc]

/-- The scoring loop on inputs where every query token vector is at most
as long as every stored token vector: it computes the spec's MaxSim
formula over each stored vector truncated to the query vector's length.
This is the shared backbone of the MaxSim claims. -/
lemma colbertScore_eq_take (Q D : List (List ℝ)) (hQ : Q ≠ []) (hD : D ≠ [])
    (h : ∀ q ∈ Q, ∀ d ∈ D, q.length ≤ d.length) :
    colbertScore Q D
      = .fin ((1 / (Q.length : ℝ)) *
          (Q.map (fun q => listMax (D.map (fun d => cosSim q (d.take q.length))))).sum) := by
  unfold colbertScore
  have hinner : ∀ (t : JsNum), ∀ qv ∈ Q,
      jsAdd t (D.foldl (fun m dv => jsMax m (simOne qv dv)) .ninf)
        = jsAdd t (.fin (listMax (D.map (fun d => cosSim qv (d.take qv.length))))) := by
    intro t qv hqv
    have hD' : ∀ (m : JsNum), ∀ dv ∈ D,
        jsMax m (simOne qv dv) = jsMax m (.fin (cosSim qv (dv.take qv.length))) := by
      intro m dv hdv
      rw [simOne_eq qv dv (h qv hqv dv hdv)]
    rw [List.foldl_ext _ _ _ hD', foldl_jsMax_fin (fun d => cosSim qv (d.take qv.length)) D hD]
  rw [List.foldl_ext _ _ _ hinner,
    foldl_jsAdd_fin (fun q => listMax (D.map (fun d => cosSim q (d.take q.length)))) Q 0]
  have hlen : ((Q.length : ℝ)) ≠ 0 :=
    Nat.cast_ne_zero.mpr (List.length_pos.mpr hQ).ne'
  simp only [jsDiv]
  rw [if_neg hlen]
  congr 1
  rw [zero_add, one_div_mul_eq_div]

/-! ## Lemmas about the stable sort and the result pipeline -/

lemma insertSorted_perm (le : α → α → Prop) (x : α) :
    ∀ l : List α, (insertSorted le x l).Perm (x :: l) := by
  intro l
  induction l with
  | nil => exact List.Perm.refl _
  | cons y ys ih =>
    unfold insertSorted
    by_cases h : le x y
    · rw [if_pos h]
    · rw [if_neg h]
      exact (ih.cons y).trans (List.Perm.swap x y ys)

lemma stableSort_perm (le : α → α → Prop) :
    ∀ l : List α, (stableSort le l).Perm l := by
  intro l
  induction l with
  | nil => exact List.Perm.refl _
  | cons x xs ih =>
    unfold stableSort
    exact (insertSorted_perm le x (stableSort le xs)).trans (ih.cons x)

lemma insertSorted_pairwise (le : α → α → Prop) (S : α → Prop)
    (htrans : ∀ a b c, S a → S b → S c → le a b → le b c → le a c)
    (htot : ∀ a b, S a → S b → le a b ∨ le b a)
    (x : α) (hx : S x) :
    ∀ l : List α, (∀ a ∈ l, S a) → l.Pairwise le → (insertSorted le x l).Pairwise le := by
  intro l
  induction l with
  | nil =>
    intro _ _
    simp [insertSorted]
  | cons y ys ih =>
    intro hS hp
    rw [List.pairwise_cons] at hp
    obtain ⟨hy, hys⟩ := hp
    unfold insertSorted
    by_cases h : le x y
    · rw [if_pos h]
      refine List.Pairwise.cons ?_ (List.Pairwise.cons hy hys)
      intro b hb
      rcases List.mem_cons.mp hb with rfl | hb'
      · exact h
      · exact htrans x y b hx (hS y (by simp)) (hS b (by simp [hb'])) h (hy b hb')
    · rw [if_neg h]
      have hyS : S y := hS y (by simp)
      have hyx : le y x := (htot x y hx hyS).resolve_left h
      refine List.Pairwise.cons ?_ (ih (fun a ha => hS a (by simp [ha])) hys)
      intro b hb
      have hb2 : b ∈ x :: ys := (insertSorted_perm le x ys).mem_iff.mp hb
      rcases List.mem_cons.mp hb2 with rfl | hb'
      · exact hyx
      · exact hy b hb'

lemma stableSort_pairwise (le : α → α → Prop) (S : α → Prop)
    (htrans : ∀ a b c, S a → S b → S c → le a b → le b c → le a c)
    (htot : ∀ a b, S a → S b → le a b ∨ le b a) :
    ∀ l : List α, (∀ a ∈ l, S a) → (stableSort le l).Pairwise le := by
  intro l
  induction l with
  | nil =>
    intro _
    simp [stableSort]
  | cons x xs ih =>
    intro hS
    unfold stableSort
    refine insertSorted_pairwise le S htrans htot x (hS x (by simp)) _ ?_ (ih ?_)
    · intro a ha
      exact hS a (by simp [(stableSort_perm le xs).mem_iff.mp ha])
    · intro a ha
      exact hS a (by simp [ha])

lemma stableSort_of_all_tied (le : α → α → Prop) :
    ∀ l : List α, (∀ a ∈ l, ∀ b ∈ l, le a b) → stableSort le l = l := by
  intro l
  induction l with
  | nil => intro _; rfl
  | cons x xs ih =>
    intro h
    unfold stableSort
    rw [ih (fun a ha b hb => h a (by simp [ha]) b (by simp [hb]))]
    cases xs with
    | nil => rfl
    | cons y ys =>
      unfold insertSorted
      rw [if_pos (h x (by simp) y (by simp))]

lemma mem_jsSlice {a : α} {l : List α} {k : ℤ} (h : a ∈ jsSlice l k) : a ∈ l := by
  unfold jsSlice at h
  by_cases hk : 0 ≤ k
  · rw [if_pos hk] at h
    exact (List.take_sublist _ _).mem h
  · rw [if_neg hk] at h
    exact (List.take_sublist _ _).mem h

lemma length_jsSlice_le (l : List α) {k : ℤ} (hk : 0 ≤ k) :
    ((jsSlice l k).length : ℤ) ≤ k := by
  unfold jsSlice
  rw [if_pos hk]
  calc ((List.take k.toNat l).length : ℤ) ≤ (k.toNat : ℤ) := by
        exact_mod_cast List.length_take_le _ _
    _ = k := Int.toNat_of_nonneg hk

lemma mem_rerank {qc : List (List ℝ)} {cands : List Candidate} {k : ℤ} {e : ResultEntry}
    (he : e ∈ rerank qc cands k) :
    ∃ c ∈ cands, keepCandidate c = true ∧ e = scoreEntry qc c := by
  unfold rerank at he
  have h1 := mem_jsSlice he
  have h2 : e ∈ (cands.filter keepCandidate).map (scoreEntry qc) :=
    (stableSort_perm sortKeep _).mem_iff.mp h1
  rcases List.mem_map.mp h2 with ⟨c, hc, rfl⟩
  rcases List.mem_filter.mp hc with ⟨hcands, hkeep⟩
  exact ⟨c, hcands, hkeep, rfl⟩

lemma length_rerank_le (qc : List (List ℝ)) (cands : List Candidate) {k : ℤ} (hk : 0 ≤ k) :
    ((rerank qc cands k).length : ℤ) ≤ k :=
  length_jsSlice_le _ hk

/-- Reading of a non-`NaN` comparator key as an ordered value: `-Infinity`
is the bottom element, finite scores compare as reals (`nan` is mapped to
`⊥` as junk; the lemmas below never use it). -/
def finOrd : JsNum → WithBot ℝ
  | .nan => ⊥
  | .ninf => ⊥
  | .fin x => (x : WithBot ℝ)

lemma sortKeep_iff_of_ne_nan {a b : ResultEntry}
    (ha : a.final_score ≠ .nan) (hb : b.final_score ≠ .nan) :
    sortKeep a b ↔ finOrd b.final_score ≤ finOrd a.final_score := by
  cases hb' : b.final_score with
  | nan => exact absurd hb' hb
  | ninf =>
    cases ha' : a.final_score with
    | nan => exact absurd ha' ha
    | ninf => simp [sortKeep, hb', ha', finOrd]
    | fin y => simp [sortKeep, hb', ha', finOrd]
  | fin x =>
    cases ha' : a.final_score with
    | nan => exact absurd ha' ha
    | ninf => simp [sortKeep, hb', ha', finOrd]
    | fin y => simp [sortKeep, hb', ha', finOrd]

lemma sortKeep_trans_of_ne_nan (a b c : ResultEntry)
    (ha : a.final_score ≠ .nan) (hb : b.final_score ≠ .nan) (hc : c.final_score ≠ .nan)
    (hab : sortKeep a b) (hbc : sortKeep b c) : sortKeep a c :=
  (sortKeep_iff_of_ne_nan ha hc).mpr
    (le_trans ((sortKeep_iff_of_ne_nan hb hc).mp hbc) ((sortKeep_iff_of_ne_nan ha hb).mp hab))

lemma sortKeep_total_of_ne_nan (a b : ResultEntry)
    (ha : a.final_score ≠ .nan) (hb : b.final_score ≠ .nan) :
    sortKeep a b ∨ sortKeep b a := by
  rcases le_total (finOrd b.final_score) (finOrd a.final_score) with h | h
  · exact Or.inl ((sortKeep_iff_of_ne_nan ha hb).mpr h)
  · exact Or.inr ((sortKeep_iff_of_ne_nan hb ha).mpr h)

lemma jsSlice_sublist (l : List α) (k : ℤ) : (jsSlice l k).Sublist l := by
  unfold jsSlice
  by_cases hk : 0 ≤ k
  · rw [if_pos hk]; exact List.take_sublist _ _
  · rw [if_neg hk]; exact List.take_sublist _ _

lemma nan_ne_fin_iff (x : ℝ) : JsNum.nan = JsNum.fin x ↔ False := by simp

lemma fin_ne_nan_iff (x : ℝ) : JsNum.fin x = JsNum.nan ↔ False := by simp

/-! ## Concrete inputs used by the counterexamples and witnesses -/

/-- A candidate whose stored late-interaction vector list is present but
empty (`colbert_embedding: []`). -/
def emptyVecCand : Candidate :=
  { id := 42, score := 1 / 2, payload := some { text := "t", colbert_embedding := some [] } }

/-- A well-formed candidate with one stored token vector. -/
def okCand : Candidate :=
  { id := 7, score := 1 / 2, payload := some { text := "w", colbert_embedding := some [[1]] } }

/-- Two candidates that tie on every score, arriving with the larger id
first. -/
def tieCandFirst : Candidate :=
  { id := 2, score := 1 / 2, payload := some { text := "a", colbert_embedding := some [[1]] } }

/-- See `tieCandFirst`; this one arrives second with the smaller id. -/
def tieCandSecond : Candidate :=
  { id := 1, score := 1 / 2, payload := some { text := "b", colbert_embedding := some [[1]] } }

/-- A plain input with no optional fields set. -/
def plainInput : SearchInput := { query := "q", collection_name := none, top_k := none }

/-- Responses delivering `emptyVecCand` as the only fused candidate. -/
def emptyVecResponses : Responses :=
  { denseEmbedding := [1], bm25Embedding := ⟨[], []⟩, colbertEmbedding := [[1]],
    searchResult := some ⟨some [emptyVecCand]⟩ }

/-- Responses delivering `okCand` as the only fused candidate. -/
def okResponses : Responses :=
  { denseEmbedding := [1], bm25Embedding := ⟨[], []⟩, colbertEmbedding := [[1]],
    searchResult := some ⟨some [okCand]⟩ }

/-- Responses delivering the two tied candidates, larger id first. -/
def tieResponses : Responses :=
  { denseEmbedding := [1], bm25Embedding := ⟨[], []⟩, colbertEmbedding := [[1]],
    searchResult := some ⟨some [tieCandFirst, tieCandSecond]⟩ }

/-! ## The claims -/

/-- C1: for non-empty query and document token-vector sequences of one
common dimension, the late-interaction score computed by `colbertScore`
equals `(1/|Q|) * Σ_{q∈Q} max_{d∈D} cos(q, d)`, with the cosine of any
pairing involving a zero-norm vector defined as `0`. -/
theorem c1_maxsim_score (Q D : List (List ℝ)) (n : ℕ) (hQ : Q ≠ []) (hD : D ≠ [])
    (hQdim : ∀ q ∈ Q, q.length = n) (hDdim : ∀ d ∈ D, d.length = n) :
    colbertScore Q D = .fin (specMaxSim Q D) := by
  have h : ∀ q ∈ Q, ∀ d ∈ D, q.length ≤ d.length := fun q hq d hd =>
    le_of_eq ((hQdim q hq).trans (hDdim d hd).symm)
  rw [colbertScore_eq_take Q D hQ hD h]
  unfold specMaxSim
  have hmaps :
      Q.map (fun q => listMax (D.map (fun d => cosSim q (d.take q.length))))
        = Q.map (fun q => listMax (D.map (fun d => cosSim q d))) := by
    apply List.map_congr_left
    intro q hq
    have hinner : D.map (fun d => cosSim q (d.take q.length)) = D.map (fun d => cosSim q d) := by
      apply List.map_congr_left
      intro d hd
      rw [hQdim q hq, ← hDdim d hd, List.take_length]
    rw [hinner]
  rw [hmaps]

/-- C1 witness: the spec's own end-to-end scenario, query vectors
`[[1,0],[0,1]]` against a single stored vector `[[1,0]]`. -/
theorem c1_maxsim_score_witness :
    colbertScore [[(1 : ℝ), 0], [0, 1]] [[(1 : ℝ), 0]]
      = .fin (specMaxSim [[(1 : ℝ), 0], [0, 1]] [[(1 : ℝ), 0]]) :=
  c1_maxsim_score _ _ 2 (by simp) (by simp) (by simp) (by simp)

/-- C3 counterexample: on token vectors of differing dimensions the
scoring pass does not fail — there is no `DimensionMismatch` (nor any
other error path) in the code.  A query vector of dimension 1 against a
stored vector of dimension 2 yields the numeric score `1`; a query vector
of dimension 2 against a stored vector of dimension 1 yields `NaN`.  In
both cases `colbertScore` returns a value instead of raising. -/
theorem c3_dimension_mismatch_counterexample :
    colbertScore [[(1 : ℝ)]] [[1, 1]] = .fin 1
    ∧ colbertScore [[(1 : ℝ), 1]] [[1]] = .nan := by
  constructor
  · norm_num [colbertScore, simOne, innerLoop, jsIdx, jsAdd, jsMul, jsMax, jsSqrt, jsDiv,
      List.range_succ, Real.sqrt_one]
  · norm_num [colbertScore, simOne, innerLoop, jsIdx, jsAdd, jsMul, jsMax, jsSqrt, jsDiv,
      List.range_succ, nan_ne_fin_iff]

/-- C3 (amended): the scoring pass performs no dimension check and has no
failure path.  When every query token vector is at most as long as every
stored token vector it returns the numeric MaxSim score computed over the
first `|q|` components of each stored vector; a query vector longer than
a stored vector instead makes the result `NaN` (as the counterexample
shows), never a raised `DimensionMismatch`. -/
theorem c3_no_dimension_check (Q D : List (List ℝ)) (hQ : Q ≠ []) (hD : D ≠ [])
    (h : ∀ q ∈ Q, ∀ d ∈ D, q.length ≤ d.length) :
    colbertScore Q D
      = .fin ((1 / (Q.length : ℝ)) *
          (Q.map (fun q => listMax (D.map (fun d => cosSim q (d.take q.length))))).sum) :=
  colbertScore_eq_take Q D hQ hD h

/-- C3 witness: the amended statement at the mismatched input of dimension
1 against dimension 2. -/
theorem c3_no_dimension_check_witness :
    colbertScore [[(1 : ℝ)]] [[1, 1]]
      = .fin ((1 / (([[(1 : ℝ)]].length : ℕ) : ℝ)) *
          (([[(1 : ℝ)]]).map
            (fun q => listMax (([[(1 : ℝ), 1]]).map (fun d => cosSim q (d.take q.length))))).sum) :=
  c3_no_dimension_check [[(1 : ℝ)]] [[1, 1]] (by simp) (by simp) (by simp)

/-- C2 counterexample: a candidate whose stored late-interaction vector
list is present but EMPTY is not dropped — an empty array is truthy in
JavaScript, so `c.payload && c.payload.colbert_embedding` keeps it, it is
scored (`-Infinity`) and its id 42 appears in the reranked output. -/
theorem c2_empty_vectors_counterexample :
    (runSearch plainInput emptyVecResponses).results.map ResultEntry.id = [42]
    ∧ emptyVecCand.payload = some { text := "t", colbert_embedding := some [] } := by
  constructor
  · norm_num [runSearch, mkOutput, extractCandidates, rerank, jsSlice, stableSort, insertSorted,
      keepCandidate, scoreEntry, effTopK, plainInput, emptyVecResponses, emptyVecCand,
      colbertScore, simOne, innerLoop, jsIdx, jsAdd, jsMul, jsMax, jsSqrt, jsDiv, List.range_succ]
  · rfl

/-- C2 (amended): candidates whose payload or whose
`lateInteractionVectors` field is ABSENT are dropped before scoring —
every id in the reranked output comes from a candidate with a present
payload and a present `colbert_embedding` field.  A present-but-empty
vector list is, however, kept (see the counterexample). -/
theorem c2_absent_vectors_dropped (qc : List (List ℝ)) (cands : List Candidate) (k : ℤ)
    (e : ResultEntry) (he : e ∈ rerank qc cands k) :
    ∃ c ∈ cands, c.id = e.id ∧ ∃ p, c.payload = some p ∧ p.colbert_embedding.isSome = true := by
  rcases mem_rerank he with ⟨c, hc, hkeep, rfl⟩
  unfold keepCandidate at hkeep
  rw [Bool.and_eq_true] at hkeep
  obtain ⟨h1, h2⟩ := hkeep
  rcases Option.isSome_iff_exists.mp h1 with ⟨p, hp⟩
  refine ⟨c, hc, rfl, p, hp, ?_⟩
  rw [hp] at h2
  simpa using h2

/-- C2 witness: the amended statement at a concrete one-candidate run. -/
theorem c2_absent_vectors_dropped_witness :
    ∃ c ∈ [okCand], c.id = (scoreEntry [[(1 : ℝ)]] okCand).id
      ∧ ∃ p, c.payload = some p ∧ p.colbert_embedding.isSome = true :=
  c2_absent_vectors_dropped [[(1 : ℝ)]] [okCand] 3 (scoreEntry [[(1 : ℝ)]] okCand)
    (by
      have htake : ∀ e : ResultEntry, List.take (3 : ℤ).toNat [e] = [e] := fun e =>
        List.take_of_length_le (by norm_num)
      norm_num [rerank, jsSlice, stableSort, insertSorted, keepCandidate, okCand, htake])

/-- C4: every reranked entry's final score is
`hybrid_score * 0.4 + colbert_score * 0.6` (the code's fused weight 0.4
and late-interaction weight 0.6), and at fused score 0.85 with
late-interaction score 0.92 this evaluates to 0.892. -/
theorem c4_final_score_formula (qc : List (List ℝ)) (cands : List Candidate) (k : ℤ)
    (e : ResultEntry) (he : e ∈ rerank qc cands k) :
    e.final_score
      = jsAdd (jsMul (.fin e.hybrid_score) (.fin 0.4)) (jsMul e.colbert_score (.fin 0.6))
    ∧ jsAdd (jsMul (.fin (0.85 : ℝ)) (.fin 0.4)) (jsMul (.fin (0.92 : ℝ)) (.fin 0.6))
      = .fin 0.892 := by
  constructor
  · rcases mem_rerank he with ⟨c, _, _, rfl⟩
    rfl
  · show JsNum.fin ((0.85 : ℝ) * 0.4 + 0.92 * 0.6) = JsNum.fin 0.892
    norm_num

/-- C4 witness: the formula at a concrete one-candidate run. -/
theorem c4_final_score_formula_witness :
    (scoreEntry [[(1 : ℝ)]] okCand).final_score
      = jsAdd (jsMul (.fin (scoreEntry [[(1 : ℝ)]] okCand).hybrid_score) (.fin 0.4))
          (jsMul (scoreEntry [[(1 : ℝ)]] okCand).colbert_score (.fin 0.6))
    ∧ jsAdd (jsMul (.fin (0.85 : ℝ)) (.fin 0.4)) (jsMul (.fin (0.92 : ℝ)) (.fin 0.6))
      = .fin 0.892 :=
  c4_final_score_formula [[(1 : ℝ)]] [okCand] 3 (scoreEntry [[(1 : ℝ)]] okCand)
    (by
      have htake : ∀ e : ResultEntry, List.take (3 : ℤ).toNat [e] = [e] := fun e =>
        List.take_of_length_le (by norm_num)
      norm_num [rerank, jsSlice, stableSort, insertSorted, keepCandidate, okCand, htake])

/-- C5 counterexample: the sort has no tie-break.  Two candidates with
identical `final_score` (and identical `colbert_score`) arrive with id 2
before id 1; the claimed id-ascending tie-break would output `[1, 2]`,
but the code's stable sort leaves them in arrival order `[2, 1]`. -/
theorem c5_tiebreak_counterexample :
    (runSearch plainInput tieResponses).results.map ResultEntry.id = [2, 1]
    ∧ ([2, 1] : List ℕ) ≠ [1, 2] := by
  constructor
  · norm_num [runSearch, mkOutput, extractCandidates, rerank, jsSlice, stableSort, insertSorted,
      keepCandidate, scoreEntry, effTopK, plainInput, tieResponses, tieCandFirst, tieCandSecond,
      sortKeep, colbertScore, simOne, innerLoop, jsIdx, jsAdd, jsMul, jsMax, jsSqrt, jsDiv,
      List.range_succ, Real.sqrt_one]
  · simp

/-- C5 (amended): the output is sorted descending by `final_score` alone
(whenever no `NaN` final score arises): the comparator relation holds
pairwise along the output, and on `NaN`-free entries that relation is
exactly "later final score ≤ earlier final score" with `-Infinity` at the
bottom.  Ties are NOT broken by `colbert_score` or id: a fully tied list
is returned in arrival order unchanged. -/
theorem c5_sort_desc_no_tiebreak (qc : List (List ℝ)) (cands : List Candidate) (k : ℤ)
    (hnn : ∀ e ∈ (cands.filter keepCandidate).map (scoreEntry qc), e.final_score ≠ JsNum.nan) :
    (rerank qc cands k).Pairwise sortKeep
    ∧ (∀ a b : ResultEntry, a.final_score ≠ .nan → b.final_score ≠ .nan →
        (sortKeep a b ↔ finOrd b.final_score ≤ finOrd a.final_score))
    ∧ (∀ l : List ResultEntry, (∀ a ∈ l, ∀ b ∈ l, sortKeep a b) → stableSort sortKeep l = l) := by
  refine ⟨?_, fun a b ha hb => sortKeep_iff_of_ne_nan ha hb, stableSort_of_all_tied _⟩
  have hsorted :
      (stableSort sortKeep ((cands.filter keepCandidate).map (scoreEntry qc))).Pairwise
        sortKeep :=
    stableSort_pairwise sortKeep (fun e => e.final_score ≠ JsNum.nan)
      (fun a b c ha hb hc hab hbc => sortKeep_trans_of_ne_nan a b c ha hb hc hab hbc)
      (fun a b ha hb => sortKeep_total_of_ne_nan a b ha hb) _ hnn
  exact List.Pairwise.sublist (jsSlice_sublist _ _) hsorted

/-- C5 witness: the amended statement at a concrete one-candidate run. -/
theorem c5_sort_desc_no_tiebreak_witness :
    ((rerank [[(1 : ℝ)]] [okCand] 3).Pairwise sortKeep)
    ∧ (∀ a b : ResultEntry, a.final_score ≠ .nan → b.final_score ≠ .nan →
        (sortKeep a b ↔ finOrd b.final_score ≤ finOrd a.final_score))
    ∧ (∀ l : List ResultEntry, (∀ a ∈ l, ∀ b ∈ l, sortKeep a b) → stableSort sortKeep l = l) :=
  c5_sort_desc_no_tiebreak [[(1 : ℝ)]] [okCand] 3
    (by
      norm_num [keepCandidate, okCand, scoreEntry, colbertScore, simOne, innerLoop, jsIdx,
        jsAdd, jsMul, jsMax, jsSqrt, jsDiv, List.range_succ, Real.sqrt_one, fin_ne_nan_iff])

/-- C6 counterexample: with an empty query and non-positive `top_k = 0`
the node does NOT fail with `InvalidInput` — its very first action is to
suspend on the dense-embedding network request, carrying the empty query
as its prompt. -/
theorem c6_no_invalid_input_counterexample :
    pendingRequests (initState { query := "", collection_name := none, top_k := some 0 })
      = [Request.denseEmbed "nomic-embed-text" ""]
    ∧ pendingRequests (initState { query := "", collection_name := none, top_k := some 0 })
      ≠ [] := by
  exact ⟨rfl, by simp [pendingRequests, initState]⟩

/-- C6 (amended): the node performs no input validation at all.  For
every input — empty query included — the first thing it does is issue
the dense-embedding request with the query as given; a caller-supplied
`top_k` of `0` is silently replaced by the default `3` (JavaScript `||`),
and a negative `top_k` is used as-is.  No `InvalidInput` failure exists. -/
theorem c6_no_input_validation (i : SearchInput) (k : ℤ) (hk : k < 0) :
    pendingRequests (initState i) = [Request.denseEmbed "nomic-embed-text" i.query]
    ∧ effTopK { query := i.query, collection_name := i.collection_name, top_k := some 0 } = 3
    ∧ effTopK { query := i.query, collection_name := i.collection_name, top_k := some k }
      = k := by
  refine ⟨rfl, by simp [effTopK], ?_⟩
  simp [effTopK, hk.ne]

/-- C6 witness: the amended statement at the empty query with
`top_k = -1`. -/
theorem c6_no_input_validation_witness :
    pendingRequests (initState { query := "", collection_name := none, top_k := some 0 })
      = [Request.denseEmbed "nomic-embed-text" ""]
    ∧ effTopK { query := "", collection_name := none, top_k := some 0 } = 3
    ∧ effTopK { query := "", collection_name := none, top_k := some (-1) } = -1 :=
  c6_no_input_validation { query := "", collection_name := none, top_k := some 0 } (-1)
    (by norm_num)

/-- C7 counterexample: "for every input the output has length at most
topK" fails for a negative caller-supplied `top_k`, which survives the
`|| 3` default untouched: with `top_k = -1` the output is empty, and its
length 0 is not ≤ -1. -/
theorem c7_negative_topk_counterexample :
    ¬ (((runSearch { query := "q", collection_name := none, top_k := some (-1) }
          { denseEmbedding := [], bm25Embedding := ⟨[], []⟩, colbertEmbedding := [[1]],
            searchResult := none }).results.length : ℤ)
        ≤ effTopK { query := "q", collection_name := none, top_k := some (-1) }) := by
  have hres :
      (runSearch { query := "q", collection_name := none, top_k := some (-1) }
        { denseEmbedding := [], bm25Embedding := ⟨[], []⟩, colbertEmbedding := [[1]],
          searchResult := none }).results = [] := by
    norm_num [runSearch, mkOutput, extractCandidates, rerank, jsSlice, stableSort, effTopK]
  rw [hres]
  norm_num [effTopK]

/-- C7 (amended): the Qdrant request carries limit `topK * 5` (the
candidate multiplier 5) on the dense prefetch channel, on the BM25
prefetch channel, and as the overall fused limit; the reranked list is
truncated with `slice(0, topK)`, so for every input whose effective topK
is non-negative the output has at most topK entries (a negative topK
instead drops its absolute value of trailing entries, breaking the
bound — see the counterexample). -/
theorem c7_limits_and_truncation (i : SearchInput) (qd : List ℝ) (qb : SparseVec)
    (qc : List (List ℝ)) (r : Responses) (hk : 0 ≤ effTopK i) :
    pendingRequests (NodeState.awaitingSearch i qd qb qc)
      = [Request.qdrantQuery (effCollection i) qd qb (effTopK i * 5) (effTopK i * 5)
          (effTopK i * 5) "rrf" true]
    ∧ ((runSearch i r).results.length : ℤ) ≤ effTopK i := by
  refine ⟨rfl, ?_⟩
  have hres : (runSearch i r).results
      = rerank r.colbertEmbedding (extractCandidates r.searchResult) (effTopK i) := rfl
  rw [hres]
  exact length_rerank_le _ _ hk

/-- C7 witness: the amended statement at a concrete input with
`top_k = 2`. -/
theorem c7_limits_and_truncation_witness :
    pendingRequests
        (NodeState.awaitingSearch { query := "q", collection_name := none, top_k := some 2 }
          [1] ⟨[], []⟩ [[1]])
      = [Request.qdrantQuery
          (effCollection { query := "q", collection_name := none, top_k := some 2 })
          [1] ⟨[], []⟩
          (effTopK { query := "q", collection_name := none, top_k := some 2 } * 5)
          (effTopK { query := "q", collection_name := none, top_k := some 2 } * 5)
          (effTopK { query := "q", collection_name := none, top_k := some 2 } * 5)
          "rrf" true]
    ∧ (((runSearch { query := "q", collection_name := none, top_k := some 2 }
          { denseEmbedding := [1], bm25Embedding := ⟨[], []⟩, colbertEmbedding := [[1]],
            searchResult := none }).results.length : ℤ)
        ≤ effTopK { query := "q", collection_name := none, top_k := some 2 }) :=
  c7_limits_and_truncation { query := "q", collection_name := none, top_k := some 2 }
    [1] ⟨[], []⟩ [[1]]
    { denseEmbedding := [1], bm25Embedding := ⟨[], []⟩, colbertEmbedding := [[1]],
      searchResult := none }
    (by norm_num [effTopK])

/-- C8 counterexample: the three embedding calls are not issued
concurrently.  At the node's first suspension point only the dense
request is outstanding — the BM25 and ColBERT requests are not in
flight — and the BM25 request is only issued by the transition that
consumes the dense response. -/
theorem c8_not_concurrent_counterexample :
    pendingRequests (initState { query := "hello", collection_name := none, top_k := none })
      = [Request.denseEmbed "nomic-embed-text" "hello"]
    ∧ Request.bm25Embed "hello"
        ∉ pendingRequests (initState { query := "hello", collection_name := none, top_k := none })
    ∧ Request.colbertEmbed "hello"
        ∉ pendingRequests (initState { query := "hello", collection_name := none, top_k := none })
    ∧ pendingRequests
        (step (initState { query := "hello", collection_name := none, top_k := none })
          (Resp.dense [1]))
      = [Request.bm25Embed "hello"] := by
  refine ⟨rfl, ?_, ?_, rfl⟩ <;> simp [pendingRequests, initState]

/-- C8 (amended): the three embedding calls (and the index query) are
issued strictly sequentially: at every suspension point of the node at
most one request is outstanding, the run starts with only the dense
request pending, and consuming the dense response is what issues the BM25
request. -/
theorem c8_sequential_awaits :
    (∀ s : NodeState, (pendingRequests s).length ≤ 1)
    ∧ (∀ i : SearchInput,
        pendingRequests (initState i) = [Request.denseEmbed "nomic-embed-text" i.query])
    ∧ (∀ (i : SearchInput) (e : List ℝ),
        step (initState i) (Resp.dense e) = NodeState.awaitingBm25 i e) := by
  refine ⟨?_, fun i => rfl, fun i e => rfl⟩
  intro s
  cases s <;> simp [pendingRequests]

/-- C9: when the Qdrant response lacks the `result` object or its
`points` array, the node completes normally with an empty `results` list
and `num_results = 0` instead of failing. -/
theorem c9_missing_points_ok (i : SearchInput) (r : Responses)
    (h : r.searchResult = none ∨ ∃ sr, r.searchResult = some sr ∧ sr.points = none) :
    (runSearch i r).results = [] ∧ (runSearch i r).num_results = 0 := by
  have hc : extractCandidates r.searchResult = [] := by
    rcases h with h | ⟨sr, h1, h2⟩
    · rw [h]
      rfl
    · rw [h1]
      simp [extractCandidates, h2]
  have hres : (runSearch i r).results
      = rerank r.colbertEmbedding (extractCandidates r.searchResult) (effTopK i) := rfl
  have hnum : (runSearch i r).num_results
      = (rerank r.colbertEmbedding (extractCandidates r.searchResult) (effTopK i)).length := rfl
  rw [hres, hnum, hc]
  constructor <;> simp [rerank, stableSort, jsSlice]

/-- C9 witness: a run whose Qdrant response has no `result` object. -/
theorem c9_missing_points_ok_witness :
    (runSearch plainInput
        { denseEmbedding := [1], bm25Embedding := ⟨[], []⟩, colbertEmbedding := [[1]],
          searchResult := none }).results = []
    ∧ (runSearch plainInput
        { denseEmbedding := [1], bm25Embedding := ⟨[], []⟩, colbertEmbedding := [[1]],
          searchResult := none }).num_results = 0 :=
  c9_missing_points_ok plainInput
    { denseEmbedding := [1], bm25Embedding := ⟨[], []⟩, colbertEmbedding := [[1]],
      searchResult := none }
    (Or.inl rfl)

/-- C10: two independent defaults, each stated for every input — any
input without a `collection_name` targets the collection `hybrid_demo`,
and any input whose `top_k` is absent or `0` gets the effective topK `3`,
so such a run returns at most 3 results (rather than zero results or an
error). -/
theorem c10_defaults (i : SearchInput) :
    (i.collection_name = none → effCollection i = "hybrid_demo")
    ∧ ((i.top_k = none ∨ i.top_k = some 0) →
        effTopK i = 3 ∧ ∀ r : Responses, (runSearch i r).results.length ≤ 3) := by
  constructor
  · intro hc
    simp [effCollection, hc]
  · intro hk
    have h3 : effTopK i = 3 := by
      rcases hk with h | h <;> simp [effTopK, h]
    refine ⟨h3, ?_⟩
    intro r
    have hres : (runSearch i r).results
        = rerank r.colbertEmbedding (extractCandidates r.searchResult) (effTopK i) := rfl
    have hlen := length_rerank_le r.colbertEmbedding (extractCandidates r.searchResult)
      (k := effTopK i) (by rw [h3]; norm_num)
    rw [h3] at hlen
    rw [hres, h3]
    exact_mod_cast hlen

/-- C10 witness: both defaults at a concrete input with both optional
fields absent, with the result-length bound instantiated at a concrete
response. -/
theorem c10_defaults_witness :
    effCollection plainInput = "hybrid_demo" ∧ effTopK plainInput = 3
    ∧ (runSearch plainInput okResponses).results.length ≤ 3 := by
  have h := c10_defaults plainInput
  exact ⟨h.1 rfl, (h.2 (Or.inl rfl)).1, (h.2 (Or.inl rfl)).2 okResponses⟩

end HybridSearch
